import Mathlib

/-!
Verification development for the VoronoiFPS structure selector.

The visible source is `src/bin/select-structures.rs`: a driver that performs
structure-aware farthest point sampling on top of a `VoronoiDecomposer`.
The decomposer itself lives in the library crate (not in the visible
sources), so its behaviour is modelled from the specification; every
definition modelled that way carries a doc comment saying so.  The driver
(`main`) and the helper `find_max` are translated directly from the Rust
source.

Real values are modelled as rationals.  A possibly-NaN `f64` (as consumed by
`find_max` through `partial_cmp`) is modelled as `Option ℚ`, with `none`
standing for NaN: `partial_cmp` on `f64` returns `None` exactly when one of
the operands is NaN, and that is the only float behaviour `find_max`
depends on.
-/

namespace VoronoiFPS

/-- A point of the cloud: one row of the input matrix, as a list of
(exact, integer-valued) coordinates. -/
abbrev Point := List ℤ

/-- Squared Euclidean distance between two points, as an (exact) rational
radius value (the metric used by the decomposer, per the
specification). -/
def squared_distance (p q : Point) : ℚ :=
  (((p.zip q).map (fun c => (c.1 - c.2) * (c.1 - c.2))).sum : ℤ)

/-- Errors surfaced by `find_max` (the two `expect` calls in the Rust
source): a comparison hit a NaN, or the iterator was empty. -/
inductive FindMaxError
  | gotNaN
  | emptySlice
deriving DecidableEq

/-- Model of `f64::partial_cmp`: `none` (NaN) is incomparable to anything,
two actual values compare as rationals. -/
def optCmp : Option ℚ → Option ℚ → Option Ordering
  | some a, some b => some (if a < b then .lt else if a = b then .eq else .gt)
  | _, _ => none

/-- One step of `Iterator::max_by`'s reduction, i.e. `core::cmp::max_by`
with the comparator from the source: the accumulated element `x` is kept
only when it compares strictly greater than the new element `y`; on
`Less` or `Equal` the new element wins.  An incomparable pair is the
`expect("got NaN value")` panic. -/
def maxByStep (x y : ℕ × Option ℚ) : Except FindMaxError (ℕ × Option ℚ) :=
  match optCmp x.2 y.2 with
  | none => .error .gotNaN
  | some .gt => .ok x
  | some _ => .ok y

/-- The fold underlying `Iterator::max_by` (a `reduce` whose accumulator
starts at the first element). -/
def maxByFold : (ℕ × Option ℚ) → List (ℕ × Option ℚ) → Except FindMaxError (ℕ × Option ℚ)
  | acc, [] => .ok acc
  | acc, y :: ys =>
    match maxByStep acc y with
    | .error e => .error e
    | .ok acc' => maxByFold acc' ys

/-- Translation of `find_max` from the source: enumerate the values,
reduce with `max_by` under `partial_cmp`, panic (`error`) on an empty
iterator or on a NaN comparison. -/
def find_max (values : List (Option ℚ)) : Except FindMaxError (ℕ × Option ℚ) :=
  match values.enum with
  | [] => .error .emptySlice
  | x :: xs => maxByFold x xs

/-- `find_max` specialised to actual (non-NaN) values, as used by the
driver on the cell radii (which are genuine squared distances). -/
def find_maxQ (values : List ℚ) : Except FindMaxError (ℕ × ℚ) :=
  match find_max (values.map some) with
  | .error e => .error e
  | .ok (i, some v) => .ok (i, v)
  | .ok (i, none) => .ok (i, 0)

/-- Modelled from the spec: the nearest-center scan.  Accumulator holds the
best (center, squared distance) seen so far; a new center takes over only
when strictly closer, which reproduces the decomposer's reassignment rule
(`d2 < dist2_to_nearest`), hence earliest-selected center wins exact
ties. -/
def nearestAux (points : List Point) (p : ℕ) :
    ℕ × ℚ → List ℕ → ℕ × ℚ
  | acc, [] => acc
  | acc, c :: cs =>
    let d := squared_distance (points.getD p []) (points.getD c [])
    if d < acc.2 then nearestAux points p (c, d) cs else nearestAux points p acc cs

/-- Modelled from the spec: the center currently owning point `p`, i.e. the
earliest-selected center at minimal squared distance (the specification's
pruning-equivalence property says the incremental pruned computation agrees
with this direct scan). -/
def nearest (points : List Point) (cs : List ℕ) (p : ℕ) : ℕ :=
  match cs with
  | [] => 0
  | c :: rest =>
    (nearestAux points p (c, squared_distance (points.getD p []) (points.getD c [])) rest).1

/-- Modelled from the spec: the members of center `c`'s Voronoi cell, in
point-index order — the center itself, plus every non-center point whose
nearest center is `c`. -/
def cellMembers (points : List Point) (cs : List ℕ) (c : ℕ) : List ℕ :=
  (List.range points.length).filter
    (fun p => decide (p = c ∨ (p ∉ cs ∧ nearest points cs p = c)))

/-- Max-reduction used for a cell's statistics: keep the pair with the
larger squared distance, first (lowest point index) winning exact ties —
the specification's deterministic tie-break by point index order. -/
def maxFold : (ℚ × ℕ) → List (ℚ × ℕ) → ℚ × ℕ
  | acc, [] => acc
  | acc, y :: ys => if acc.1 < y.1 then maxFold y ys else maxFold acc ys

/-- Modelled from the spec: a center's cell statistics, `(radius2,
farthest)` — the maximum squared distance from the center to a member of
its cell, and the member attaining it. -/
def cellStats (points : List Point) (cs : List ℕ) (c : ℕ) : ℚ × ℕ :=
  match (cellMembers points cs c).map
      (fun p => (squared_distance (points.getD c []) (points.getD p []), p)) with
  | [] => (0, c)
  | x :: xs => maxFold x xs

/-- Modelled from the spec: the `cells()` snapshot — per center, in
selection order, its current `(radius2, farthest)`. -/
def cells (points : List Point) (cs : List ℕ) : List (ℚ × ℕ) :=
  cs.map (cellStats points cs)

/-- `voronoi.cells().last().unwrap().radius2` from the source: the radius
of the most recently added center's cell. -/
def lastRadius (points : List Point) (cs : List ℕ) : ℚ :=
  ((cells points cs).getLastD (0, 0)).1

/-- Errors of a selection run: the decomposer's `add_point` precondition
violations, and `find_max`'s panics. -/
inductive RunError
  | addExistingCenter
  | outOfRange
  | findMaxFailed (e : FindMaxError)
deriving DecidableEq

/-- Modelled from the spec: `add_point` fails when the index is already a
center or out of range, otherwise appends the point as the newest center
(the incremental assignment state is recovered functionally from the
center list, which the pruning-equivalence property licenses). -/
def add_point (points : List Point) (cs : List ℕ) (i : ℕ) :
    Except RunError (List ℕ) :=
  if i ∈ cs then .error .addExistingCenter
  else if i < points.length then .ok (cs ++ [i]) else .error .outOfRange

/-- The driver's mutable state in `main`: the decomposer's centers in
selection order, `radius_when_selected`, and `selected_structures`. -/
structure MainState where
  centers : List ℕ
  radii : List ℚ
  selected : List ℕ
deriving DecidableEq

deriving instance DecidableEq for Except

/-- Translation of `structures.iter().enumerate().filter_map(...)` from the
source: the indices, in increasing order, of the points sharing structure
id `sel`, excluding index `t`. -/
def samestructure (structures : List ℕ) (sel t : ℕ) : List ℕ :=
  structures.enum.filterMap
    (fun p => if p.2 = sel ∧ p.1 ≠ t then some p.1 else none)

/-- Translation of the absorption loops of `main` (lines 58–69 and 86–97):
for each listed point, `add_point` it and push the radius of the most
recently added cell. -/
def absorbLoop (points : List Point) :
    MainState → List ℕ → Except RunError MainState
  | st, [] => .ok st
  | st, p :: ps =>
    match add_point points st.centers p with
    | .error e => .error e
    | .ok cs =>
      absorbLoop points ⟨cs, st.radii ++ [lastRadius points cs], st.selected⟩ ps

/-- Translation of one iteration of the selection loop of `main` (lines
73–98): read the snapshot, `find_max` over the radii, push that radius,
promote the winning cell's farthest point, append its structure id, then
absorb the rest of that structure. -/
def selectIter (points : List Point) (structures : List ℕ) (st : MainState) :
    Except RunError MainState :=
  match find_maxQ ((cells points st.centers).map Prod.fst) with
  | .error e => .error (.findMaxFailed e)
  | .ok (maxRadiusCell, radius) =>
    let selectedPoint := ((cells points st.centers).getD maxRadiusCell (0, 0)).2
    match add_point points st.centers selectedPoint with
    | .error e => .error e
    | .ok cs =>
      let sel := structures.getD selectedPoint 0
      absorbLoop points ⟨cs, st.radii ++ [radius], st.selected ++ [sel]⟩
        (samestructure structures sel selectedPoint)

/-- The selection loop `for _ in 1..n_select`, as `n_select - 1` sequential
iterations. -/
def selectLoop (points : List Point) (structures : List ℕ) :
    ℕ → MainState → Except RunError MainState
  | 0, st => .ok st
  | k + 1, st =>
    match selectIter points structures st with
    | .error e => .error e
    | .ok st' => selectLoop points structures k st'

/-- Translation of `main` (lines 53–98), the part between parsing the
inputs and writing the outputs: seed the decomposer with point 0, record
the seed cell's radius, absorb the rest of the seed's structure, then run
the selection loop. -/
def runMain (points : List Point) (structures : List ℕ) (nSelect : ℕ) :
    Except RunError MainState :=
  let s0 := structures.getD 0 0
  let st0 : MainState := ⟨[0], [lastRadius points [0]], [s0]⟩
  match absorbLoop points st0 (samestructure structures s0 0) with
  | .error e => .error e
  | .ok st1 => selectLoop points structures (nSelect - 1) st1

/-! ### Properties of `find_max` -/

/-- `maxByStep` keeps the accumulator when it is strictly greater. -/
lemma maxByStep_keep (ai k : ℕ) (a x : ℚ) (h : x < a) :
    maxByStep (ai, some a) (k, some x) = .ok (ai, some a) := by
  have h1 : ¬ a < x := lt_asymm h
  have h2 : a ≠ x := ne_of_gt h
  simp [maxByStep, optCmp, h1, h2]

/-- `maxByStep` replaces the accumulator on `Less` or `Equal` (Rust's
`max_by` keeps the last of equally-maximal elements). -/
lemma maxByStep_new (ai k : ℕ) (a x : ℚ) (h : a ≤ x) :
    maxByStep (ai, some a) (k, some x) = .ok (k, some x) := by
  rcases lt_or_eq_of_le h with h' | h'
  · simp [maxByStep, optCmp, h']
  · subst h'
    simp [maxByStep, optCmp]

/-- `maxByFold` never reports an empty slice: that error belongs to the
empty-iterator check alone. -/
lemma maxByFold_ne_emptySlice :
    ∀ (ys : List (ℕ × Option ℚ)) (acc : ℕ × Option ℚ),
      maxByFold acc ys ≠ .error .emptySlice := by
  intro ys
  induction ys with
  | nil => intro acc; simp [maxByFold]
  | cons y ys ih =>
    intro acc
    simp only [maxByFold]
    cases h : maxByStep acc y with
    | error e =>
      simp only [maxByStep] at h
      cases hc : optCmp acc.2 y.2 <;> rw [hc] at h
      · simp only [Except.error.injEq] at h
        simp [← h]
      · rename_i o; cases o <;> simp at h
    | ok acc' => exact ih acc'

/-- The only error `maxByStep` can produce is `gotNaN`. -/
lemma maxByStep_error {x y : ℕ × Option ℚ} {e : FindMaxError}
    (h : maxByStep x y = .error e) : e = .gotNaN := by
  simp only [maxByStep] at h
  cases hc : optCmp x.2 y.2 <;> rw [hc] at h
  · exact (Except.error.injEq .. ▸ h).symm
  · rename_i o; cases o <;> simp at h

/-- A successful `maxByStep` returns one of its two arguments. -/
lemma maxByStep_ok {x y z : ℕ × Option ℚ}
    (h : maxByStep x y = .ok z) : z = x ∨ z = y := by
  simp only [maxByStep] at h
  cases hc : optCmp x.2 y.2 <;> rw [hc] at h
  · simp at h
  · rename_i o
    cases o <;> simp only [Except.ok.injEq] at h
    · right; exact h.symm
    · right; exact h.symm
    · left; exact h.symm

/-- `maxByStep` fails when either side is NaN. -/
lemma maxByStep_nan {x y : ℕ × Option ℚ}
    (h : x.2 = none ∨ y.2 = none) : maxByStep x y = .error .gotNaN := by
  simp only [maxByStep]
  rcases h with h | h <;> rw [h]
  · rfl
  · cases x.2 <;> rfl

/-- A NaN accumulator or a NaN element makes `maxByFold` fail with the
`gotNaN` error, provided at least one comparison happens. -/
lemma maxByFold_nan :
    ∀ (ys : List (ℕ × Option ℚ)) (acc : ℕ × Option ℚ),
      (acc.2 = none ∧ ys ≠ []) ∨ (∃ y ∈ ys, y.2 = none) →
      maxByFold acc ys = .error .gotNaN := by
  intro ys
  induction ys with
  | nil =>
    intro acc h
    rcases h with ⟨_, hne⟩ | ⟨y, hy, _⟩
    · exact absurd rfl hne
    · exact absurd hy (List.not_mem_nil y)
  | cons y ys ih =>
    intro acc h
    simp only [maxByFold]
    by_cases hy : y.2 = none
    · rw [maxByStep_nan (Or.inr hy)]
    · cases hacc : acc.2 with
      | none => rw [maxByStep_nan (Or.inl hacc)]
      | some a =>
        have hnan : ∃ z ∈ ys, z.2 = none := by
          rcases h with ⟨h1, _⟩ | ⟨z, hz, hz2⟩
          · rw [hacc] at h1; exact absurd h1 (by simp)
          · rcases List.mem_cons.mp hz with rfl | hz'
            · exact absurd hz2 hy
            · exact ⟨z, hz', hz2⟩
        cases hstep : maxByStep acc y with
        | error e => rw [maxByStep_error hstep]
        | ok acc' => exact ih acc' (Or.inr hnan)

/-- Characterisation of `maxByFold` over enumerated actual values starting
from a real accumulator: it succeeds, the result bounds every value, and it
is either the untouched accumulator (everything strictly smaller than it) or
the last listed value attaining the maximum. -/
lemma maxByFold_enumFrom_spec (l : List ℚ) :
    ∀ (k ai : ℕ) (av : ℚ), ∃ i m,
      maxByFold (ai, some av) (List.enumFrom k (l.map some)) = .ok (i, some m) ∧
      av ≤ m ∧ (∀ x ∈ l, x ≤ m) ∧
      ((i = ai ∧ m = av ∧ ∀ x ∈ l, x < av) ∨
        (∃ j, l.get? j = some m ∧ i = k + j ∧
          ∀ j' q, j < j' → l.get? j' = some q → q < m)) := by
  induction l with
  | nil =>
    intro k ai av
    exact ⟨ai, av, rfl, le_refl _, by simp, Or.inl ⟨rfl, rfl, by simp⟩⟩
  | cons x xs ih =>
    intro k ai av
    simp only [List.map_cons, List.enumFrom_cons, maxByFold]
    by_cases hx : x < av
    · rw [maxByStep_keep ai k av x hx]
      obtain ⟨i, m, heq, ham, hall, hdisj⟩ := ih (k + 1) ai av
      refine ⟨i, m, heq, ham, ?_, ?_⟩
      · intro x' hx'
        rcases List.mem_cons.mp hx' with rfl | hx'
        · exact le_trans (le_of_lt hx) ham
        · exact hall x' hx'
      · rcases hdisj with ⟨hi, hm, hlt⟩ | ⟨j, hget, hij, hafter⟩
        · refine Or.inl ⟨hi, hm, ?_⟩
          intro x' hx'
          rcases List.mem_cons.mp hx' with rfl | hx'
          · exact hx
          · exact hlt x' hx'
        · refine Or.inr ⟨j + 1, by simpa using hget, by omega, ?_⟩
          intro j' q hj' hq
          cases j' with
          | zero => omega
          | succ j'' =>
            rw [List.get?_cons_succ] at hq
            exact hafter j'' q (by omega) hq
    · rw [maxByStep_new ai k av x (le_of_not_lt hx)]
      obtain ⟨i, m, heq, hxm, hall, hdisj⟩ := ih (k + 1) k x
      refine ⟨i, m, heq, le_trans (le_of_not_lt hx) hxm, ?_, ?_⟩
      · intro x' hx'
        rcases List.mem_cons.mp hx' with rfl | hx'
        · exact hxm
        · exact hall x' hx'
      · rcases hdisj with ⟨hi, hm, hlt⟩ | ⟨j, hget, hij, hafter⟩
        · refine Or.inr ⟨0, by simp [hm], by omega, ?_⟩
          intro j' q hj' hq
          cases j' with
          | zero => omega
          | succ j'' =>
            rw [List.get?_cons_succ] at hq
            rw [hm]
            exact hlt q (List.get?_mem hq)
        · refine Or.inr ⟨j + 1, by simpa using hget, by omega, ?_⟩
          intro j' q hj' hq
          cases j' with
          | zero => omega
          | succ j'' =>
            rw [List.get?_cons_succ] at hq
            exact hafter j'' q (by omega) hq

/-- On a nonempty list of actual values, `find_max` succeeds and returns
the maximum together with the LAST index attaining it. -/
lemma find_max_some (l : List ℚ) (hl : l ≠ []) : ∃ i m,
    find_max (l.map some) = .ok (i, some m) ∧ l.get? i = some m ∧
    (∀ x ∈ l, x ≤ m) ∧ ∀ j q, i < j → l.get? j = some q → q < m := by
  match l, hl with
  | x :: xs, _ =>
    obtain ⟨i, m, heq, ham, hall, hdisj⟩ := maxByFold_enumFrom_spec xs 1 0 x
    refine ⟨i, m, heq, ?_, ?_, ?_⟩
    · rcases hdisj with ⟨hi, hm, _⟩ | ⟨j, hget, hij, _⟩
      · rw [hi, hm]; rfl
      · rw [hij, Nat.add_comm 1 j]
        show (x :: xs).get? (j + 1) = some m
        simpa using hget
    · intro x' hx'
      rcases List.mem_cons.mp hx' with rfl | hx'
      · exact ham
      · exact hall x' hx'
    · intro j q hj hq
      rcases hdisj with ⟨hi, hm, hlt⟩ | ⟨j₀, _, hij, hafter⟩
      · rw [hi] at hj
        cases j with
        | zero => omega
        | succ j'' =>
          rw [List.get?_cons_succ] at hq
          rw [hm]
          exact hlt q (List.get?_mem hq)
      · rw [hij] at hj
        cases j with
        | zero => omega
        | succ j'' =>
          rw [List.get?_cons_succ] at hq
          exact hafter j'' q (by omega) hq

/-- `find_maxQ` on a nonempty list: the value is the maximum and the index
is the last index attaining it. -/
lemma find_maxQ_ok (l : List ℚ) (hl : l ≠ []) : ∃ i m,
    find_maxQ l = .ok (i, m) ∧ l.get? i = some m ∧
    (∀ x ∈ l, x ≤ m) ∧ ∀ j q, i < j → l.get? j = some q → q < m := by
  obtain ⟨i, m, heq, h1, h2, h3⟩ := find_max_some l hl
  exact ⟨i, m, by simp [find_maxQ, heq], h1, h2, h3⟩

/-- Inversion: whenever `find_maxQ` succeeds, its result is the maximum at
the last attaining index. -/
lemma find_maxQ_ok_inv {l : List ℚ} {i : ℕ} {m : ℚ}
    (h : find_maxQ l = .ok (i, m)) :
    l.get? i = some m ∧ (∀ x ∈ l, x ≤ m) ∧
      ∀ j q, i < j → l.get? j = some q → q < m := by
  cases l with
  | nil => simp [find_maxQ, find_max] at h
  | cons x xs =>
    obtain ⟨i', m', heq, h1, h2, h3⟩ := find_maxQ_ok (x :: xs) (by simp)
    rw [heq] at h
    simp only [Except.ok.injEq, Prod.mk.injEq] at h
    obtain ⟨rfl, rfl⟩ := h
    exact ⟨h1, h2, h3⟩

/-- `find_max` on a nonempty iterator never reports the empty-slice
failure. -/
lemma find_max_ne_emptySlice (vs : List (Option ℚ)) (h : vs ≠ []) :
    find_max vs ≠ .error .emptySlice := by
  cases vs with
  | nil => exact absurd rfl h
  | cons v vs' => exact maxByFold_ne_emptySlice _ _

/-! ### Claims C1, C8, C10 -/

/-- C1, counterexample: with two centers of exactly equal `radius2`, the
max-radius search returns selection-order index 1, not the claimed lowest
index 0 — `Iterator::max_by` keeps the LAST of equally-maximal elements. -/
theorem C1_counterexample :
    find_max [some 1, some 1] = .ok (1, some 1) ∧
      find_max [some 1, some 1] ≠ .ok (0, some 1) := by
  constructor
  · rfl
  · rw [show find_max [some 1, some 1] = .ok (1, some 1) from rfl]
    intro h
    exact absurd (congrArg (fun r => r.toOption.map Prod.fst) h) (by decide)

/-- C1, amended: the max-radius search over the cell radii returns the
maximal value together with the HIGHEST index attaining it (the
latest-selected center wins exact ties); with that tie-break it is
deterministic. -/
theorem C1_tie_break_latest (l : List ℚ) (hl : l ≠ []) : ∃ i m,
    find_maxQ l = .ok (i, m) ∧ l.get? i = some m ∧
    (∀ x ∈ l, x ≤ m) ∧ ∀ j q, i < j → l.get? j = some q → q < m :=
  find_maxQ_ok l hl

/-- Witness for C1's amended theorem at the concrete radius list `[1, 1]`. -/
theorem C1_witness :
    ([1, 1] : List ℚ) ≠ [] ∧ (∃ i m,
      find_maxQ [1, 1] = .ok (i, m) ∧ ([1, 1] : List ℚ).get? i = some m ∧
      (∀ x ∈ ([1, 1] : List ℚ), x ≤ m) ∧
      ∀ j q, i < j → ([1, 1] : List ℚ).get? j = some q → q < m) :=
  ⟨by decide, C1_tie_break_latest [1, 1] (by decide)⟩

/-- C8, counterexample: on a snapshot holding a single NaN radius the
max-radius search performs no comparison and RETURNS the NaN instead of
failing — `max_by` on a one-element iterator never calls the comparator. -/
theorem C8_counterexample : find_max [none] = .ok (0, none) := rfl

/-- C8, amended: whenever the snapshot holds at least two values, any NaN
among them makes the max-radius search fail fatally with the NaN error
(every element then takes part in a comparison). -/
theorem C8_nan_fatal (vs : List (Option ℚ)) (h2 : 2 ≤ vs.length)
    (hn : none ∈ vs) : find_max vs = .error .gotNaN := by
  cases vs with
  | nil => simp at h2
  | cons v vs' =>
    have hvs' : vs' ≠ [] := by
      intro h
      rw [h] at h2
      simp at h2
    show maxByFold (0, v) (List.enumFrom 1 vs') = .error .gotNaN
    rcases List.mem_cons.mp hn with rfl | hn'
    · refine maxByFold_nan _ _ (Or.inl ⟨rfl, ?_⟩)
      intro h
      have := congrArg List.length h
      rw [List.enumFrom_length] at this
      exact hvs' (List.length_eq_zero.mp this)
    · refine maxByFold_nan _ _ (Or.inr ?_)
      have : none ∈ List.map Prod.snd (List.enumFrom 1 vs') := by
        rw [List.enumFrom_map_snd]; exact hn'
      obtain ⟨y, hy, hy2⟩ := List.mem_map.mp this
      exact ⟨y, hy, hy2⟩

/-- Witness for C8's amended theorem at the concrete snapshot
`[NaN, 0.0]`. -/
theorem C8_witness :
    2 ≤ ([none, some 0] : List (Option ℚ)).length ∧
      none ∈ ([none, some 0] : List (Option ℚ)) ∧
      find_max [none, some 0] = .error .gotNaN :=
  ⟨by decide, by decide, C8_nan_fatal [none, some 0] (by decide) (by decide)⟩

/-- C10: `find_max` is partial — on an empty radius snapshot it fails with
the empty-slice panic rather than returning a default, and on any nonempty
snapshot that failure branch is unreachable. -/
theorem C10_empty_panics (vs : List (Option ℚ)) (h : vs ≠ []) :
    find_max [] = .error .emptySlice ∧
      find_max vs ≠ .error .emptySlice :=
  ⟨rfl, find_max_ne_emptySlice vs h⟩

/-- Witness for C10 at the concrete snapshot `[0.0]`. -/
theorem C10_witness :
    ([some 0] : List (Option ℚ)) ≠ [] ∧
      (find_max [] = .error .emptySlice ∧
        find_max [some 0] ≠ .error .emptySlice) :=
  ⟨by decide, C10_empty_panics [some 0] (by decide)⟩

/-! ### Properties of the absorption list and of `add_point` -/

/-- Generalised membership in an enumerated-and-filtered index list. -/
lemma mem_enumFrom_filterMap (sel t : ℕ) :
    ∀ (l : List ℕ) (k i : ℕ),
      i ∈ (List.enumFrom k l).filterMap
          (fun p => if p.2 = sel ∧ p.1 ≠ t then some p.1 else none) ↔
        (k ≤ i ∧ i - k < l.length ∧ l.getD (i - k) 0 = sel ∧ i ≠ t) := by
  intro l
  induction l with
  | nil => intro k i; simp
  | cons x xs ih =>
    intro k i
    rw [List.enumFrom_cons, List.filterMap_cons]
    constructor
    · intro hmem
      by_cases hx : x = sel ∧ k ≠ t
      · rw [if_pos hx] at hmem
        rcases List.mem_cons.mp hmem with rfl | hmem'
        · exact ⟨le_refl i, by simp, by simpa using hx.1, hx.2⟩
        · obtain ⟨h1, h2, h3, h4⟩ := (ih (k + 1) i).mp hmem'
          refine ⟨by omega, by simp; omega, ?_, h4⟩
          have : i - k = (i - (k + 1)) + 1 := by omega
          rw [this, List.getD_cons_succ]
          exact h3
      · rw [if_neg hx] at hmem
        obtain ⟨h1, h2, h3, h4⟩ := (ih (k + 1) i).mp hmem
        refine ⟨by omega, by simp; omega, ?_, h4⟩
        have : i - k = (i - (k + 1)) + 1 := by omega
        rw [this, List.getD_cons_succ]
        exact h3
    · rintro ⟨h1, h2, h3, h4⟩
      by_cases hik : i = k
      · subst hik
        have hx : x = sel := by simpa using h3
        rw [if_pos ⟨hx, h4⟩]
        exact List.mem_cons_self _ _
      · have hgt : k + 1 ≤ i := by omega
        have hik' : i - k = (i - (k + 1)) + 1 := by omega
        rw [hik', List.getD_cons_succ] at h3
        have hmem' : i ∈ (List.enumFrom (k + 1) xs).filterMap
            (fun p => if p.2 = sel ∧ p.1 ≠ t then some p.1 else none) :=
          (ih (k + 1) i).mpr ⟨hgt, by simp at h2; omega, h3, h4⟩
        by_cases hx : x = sel ∧ k ≠ t
        · rw [if_pos hx]; exact List.mem_cons_of_mem _ hmem'
        · rw [if_neg hx]; exact hmem'

/-- Membership in the absorption list: the points of structure `sel` other
than `t`, all in range. -/
lemma mem_samestructure (structures : List ℕ) (sel t i : ℕ) :
    i ∈ samestructure structures sel t ↔
      (i < structures.length ∧ structures.getD i 0 = sel ∧ i ≠ t) := by
  have h := mem_enumFrom_filterMap sel t structures 0 i
  rw [samestructure]
  rw [show structures.enum = List.enumFrom 0 structures from rfl]
  rw [h]
  simp

/-- The absorption list is strictly increasing (points are scanned in
point-index order). -/
lemma samestructure_sorted (structures : List ℕ) (sel t : ℕ) :
    List.Pairwise (· < ·) (samestructure structures sel t) := by
  rw [samestructure, show structures.enum = List.enumFrom 0 structures from rfl]
  generalize 0 = k
  induction structures generalizing k with
  | nil => simp
  | cons x xs ih =>
    rw [List.enumFrom_cons, List.filterMap_cons]
    by_cases hx : x = sel ∧ k ≠ t
    · rw [if_pos hx]
      refine List.Pairwise.cons ?_ (ih (k + 1))
      intro b hb
      have := (mem_enumFrom_filterMap sel t xs (k + 1) b).mp hb
      omega
    · rw [if_neg hx]
      exact ih (k + 1)

/-- Inversion of a successful `add_point`: the point was not yet a center,
is in range, and becomes the newest center. -/
lemma add_point_ok {points : List Point} {cs : List ℕ} {i : ℕ} {cs' : List ℕ}
    (h : add_point points cs i = .ok cs') :
    i ∉ cs ∧ i < points.length ∧ cs' = cs ++ [i] := by
  by_cases h1 : i ∈ cs
  · simp [add_point, h1] at h
  · by_cases h2 : i < points.length
    · refine ⟨h1, h2, ?_⟩
      simp only [add_point, if_neg h1, if_pos h2, Except.ok.injEq] at h
      exact h.symm
    · simp [add_point, h1, h2] at h

/-- Inversion of a successful absorption run: the listed points are
appended to the centers in order, one radius entry is appended per point,
the selected list is untouched, no-duplication of centers is preserved,
and every absorbed point is in range. -/
lemma absorbLoop_ok (points : List Point) :
    ∀ (l : List ℕ) (st st' : MainState),
      absorbLoop points st l = .ok st' →
      st'.centers = st.centers ++ l ∧
      (∃ t, st'.radii = st.radii ++ t ∧ t.length = l.length) ∧
      st'.selected = st.selected ∧
      (st.centers.Nodup → st'.centers.Nodup) ∧
      (∀ i ∈ l, i < points.length) := by
  intro l
  induction l with
  | nil =>
    intro st st' h
    simp only [absorbLoop] at h
    obtain rfl := Except.ok.inj h
    exact ⟨by simp, ⟨[], by simp, rfl⟩, rfl, fun hd => hd, by simp⟩
  | cons p ps ih =>
    intro st st' h
    simp only [absorbLoop] at h
    cases hap : add_point points st.centers p with
    | error e => rw [hap] at h; cases h
    | ok cs =>
      rw [hap] at h
      obtain ⟨hnotin, hplt, rfl⟩ := add_point_ok hap
      obtain ⟨hc, ⟨t, ht, htl⟩, hs, hnd, hall⟩ := ih _ _ h
      refine ⟨?_, ⟨lastRadius points (st.centers ++ [p]) :: t, ?_, ?_⟩, hs, ?_, ?_⟩
      · rw [hc]; simp
      · rw [ht]; simp
      · simp [htl]
      · intro hnd0
        apply hnd
        rw [List.nodup_append]
        exact ⟨hnd0, List.nodup_singleton p, List.disjoint_singleton.mpr hnotin⟩
      · intro i hi
        rcases List.mem_cons.mp hi with rfl | hi'
        · exact hplt
        · exact hall i hi'

/-! ### Properties of the cell statistics -/

/-- The max-reduction over cell member distances returns one of its inputs
and bounds all of them. -/
lemma maxFold_spec :
    ∀ (ys : List (ℚ × ℕ)) (acc : ℚ × ℕ),
      (maxFold acc ys = acc ∨ maxFold acc ys ∈ ys) ∧
      acc.1 ≤ (maxFold acc ys).1 ∧ ∀ y ∈ ys, y.1 ≤ (maxFold acc ys).1 := by
  intro ys
  induction ys with
  | nil => intro acc; exact ⟨Or.inl rfl, le_refl _, by simp⟩
  | cons y ys ih =>
    intro acc
    simp only [maxFold]
    by_cases h : acc.1 < y.1
    · rw [if_pos h]
      obtain ⟨hmem, hle, hall⟩ := ih y
      refine ⟨?_, le_trans (le_of_lt h) hle, ?_⟩
      · rcases hmem with h' | h'
        · exact Or.inr (by rw [h']; exact List.mem_cons_self y ys)
        · exact Or.inr (List.mem_cons_of_mem y h')
      · intro z hz
        rcases List.mem_cons.mp hz with rfl | hz'
        · exact hle
        · exact hall z hz'
    · rw [if_neg h]
      obtain ⟨hmem, hle, hall⟩ := ih acc
      refine ⟨?_, hle, ?_⟩
      · rcases hmem with h' | h'
        · exact Or.inl h'
        · exact Or.inr (List.mem_cons_of_mem y h')
      · intro z hz
        rcases List.mem_cons.mp hz with rfl | hz'
        · exact le_trans (le_of_not_lt h) hle
        · exact hall z hz'

/-- A center in range belongs to its own cell. -/
lemma mem_cellMembers_self (points : List Point) (cs : List ℕ) (c : ℕ)
    (hc : c < points.length) : c ∈ cellMembers points cs c := by
  rw [cellMembers, List.mem_filter]
  exact ⟨List.mem_range.mpr hc, by simp⟩

/-- The cell statistics of a nonempty cell: `farthest` is a member,
`radius2` is its distance to the center, and no member is farther. -/
lemma cellStats_spec (points : List Point) (cs : List ℕ) (c : ℕ)
    (hc : c ∈ cellMembers points cs c) :
    (cellStats points cs c).2 ∈ cellMembers points cs c ∧
    (cellStats points cs c).1 =
      squared_distance (points.getD c []) (points.getD (cellStats points cs c).2 []) ∧
    ∀ p ∈ cellMembers points cs c,
      squared_distance (points.getD c []) (points.getD p []) ≤
        (cellStats points cs c).1 := by
  cases hL : (cellMembers points cs c).map
      (fun p => (squared_distance (points.getD c []) (points.getD p []), p)) with
  | nil =>
    rw [List.map_eq_nil_iff] at hL
    rw [hL] at hc
    exact absurd hc (List.not_mem_nil c)
  | cons x xs =>
    have hstats : cellStats points cs c = maxFold x xs := by
      rw [cellStats, hL]
    rw [hstats]
    obtain ⟨hmem, hle, hall⟩ := maxFold_spec xs x
    have hres : maxFold x xs ∈ (cellMembers points cs c).map
        (fun p => (squared_distance (points.getD c []) (points.getD p []), p)) := by
      rw [hL]
      rcases hmem with h' | h'
      · rw [h']; exact List.mem_cons_self x xs
      · exact List.mem_cons_of_mem x h'
    obtain ⟨p, hp, hpe⟩ := List.mem_map.mp hres
    refine ⟨?_, ?_, ?_⟩
    · rw [← hpe]; exact hp
    · rw [← hpe]
    · intro q hq
      have hq' : (squared_distance (points.getD c []) (points.getD q []), q) ∈
          x :: xs := by
        rw [← hL]
        exact List.mem_map_of_mem _ hq
      rcases List.mem_cons.mp hq' with h' | h'
      · have hfst : squared_distance (points.getD c []) (points.getD q []) = x.1 :=
          congrArg Prod.fst h'
        rw [hfst]
        exact hle
      · exact hall _ h'

/-- With a single center 0, the seed's cell contains every point. -/
lemma cellMembers_seed (points : List Point) :
    cellMembers points [0] 0 = List.range points.length := by
  rw [cellMembers]
  apply List.filter_eq_self.mpr
  intro p _
  by_cases h : p = 0
  · simp [h]
  · simp only [decide_eq_true_eq]
    exact Or.inr ⟨by simp [h], rfl⟩

/-- The first recorded radius: the seed cell's radius with one center is
the maximum squared distance from the seed to any point. -/
lemma lastRadius_seed (points : List Point) (hp : 0 < points.length) :
    ∃ i, i < points.length ∧
      lastRadius points [0] =
        squared_distance (points.getD 0 []) (points.getD i []) ∧
      ∀ j, j < points.length →
        squared_distance (points.getD 0 []) (points.getD j []) ≤
          lastRadius points [0] := by
  have hself : 0 ∈ cellMembers points [0] 0 := by
    rw [cellMembers_seed]
    exact List.mem_range.mpr hp
  obtain ⟨hmem, heq, hall⟩ := cellStats_spec points [0] 0 hself
  have hlast : lastRadius points [0] = (cellStats points [0] 0).1 := rfl
  rw [cellMembers_seed] at hmem hall
  refine ⟨(cellStats points [0] 0).2, List.mem_range.mp hmem, ?_, ?_⟩
  · rw [hlast, heq]
  · intro j hj
    rw [hlast]
    exact hall j (List.mem_range.mpr hj)

/-! ### The driver invariant -/

/-- A list element read through `getD` at an in-range index is a member. -/
lemma getD_mem_of_lt {l : List ℕ} {i : ℕ} (h : i < l.length) : l.getD i 0 ∈ l := by
  rw [List.getD_eq_getElem?_getD, List.getElem?_eq_getElem h]
  simp

/-- Invariant maintained by the driver between selection-loop iterations:
the decomposer has at least one center, one radius has been recorded per
added point, no point was added twice, every center is in range, the
centers are exactly the points of the selected structures, and the
selected structure ids are distinct ids present in the input. -/
structure Inv (points : List Point) (structures : List ℕ) (st : MainState) : Prop where
  neNil : st.centers ≠ []
  lockstep : st.radii.length = st.centers.length
  nodup : st.centers.Nodup
  memLt : ∀ i ∈ st.centers, i < structures.length
  covered : ∀ i, i < structures.length → structures.getD i 0 ∈ st.selected →
    i ∈ st.centers
  centersSel : ∀ i ∈ st.centers, structures.getD i 0 ∈ st.selected
  selNodup : st.selected.Nodup
  selMem : ∀ s ∈ st.selected, s ∈ structures

/-- The invariant holds after seeding and absorbing the seed structure. -/
lemma inv_init {points : List Point} {structures : List ℕ} {st1 : MainState}
    (hn : 0 < structures.length) (hlen : points.length = structures.length)
    (h : absorbLoop points ⟨[0], [lastRadius points [0]], [structures.getD 0 0]⟩
      (samestructure structures (structures.getD 0 0) 0) = .ok st1) :
    Inv points structures st1 := by
  obtain ⟨hc, ⟨t, ht, htl⟩, hs, hnd, hall⟩ := absorbLoop_ok points _ _ _ h
  have hc' : st1.centers = [0] ++ samestructure structures (structures.getD 0 0) 0 := hc
  have ht' : st1.radii = [lastRadius points [0]] ++ t := ht
  have hs' : st1.selected = [structures.getD 0 0] := hs
  refine ⟨?_, ?_, ?_, ?_, ?_, ?_, ?_, ?_⟩
  · rw [hc']; simp
  · rw [ht', hc']
    simp only [List.length_append, List.length_cons, List.length_nil]
    omega
  · exact hnd (List.nodup_singleton 0)
  · intro i hi
    rw [hc'] at hi
    rcases List.mem_append.mp hi with hi0 | hiL
    · have : i = 0 := List.mem_singleton.mp hi0
      subst this
      exact hn
    · exact hlen ▸ hall i hiL
  · intro i hilt hisel
    rw [hs'] at hisel
    have hieq : structures.getD i 0 = structures.getD 0 0 :=
      List.mem_singleton.mp hisel
    rw [hc']
    by_cases hi0 : i = 0
    · subst hi0; exact List.mem_append_left _ (by simp)
    · refine List.mem_append_right _ ?_
      exact (mem_samestructure structures (structures.getD 0 0) 0 i).mpr
        ⟨hilt, hieq, hi0⟩
  · intro i hi
    rw [hc'] at hi
    rw [hs']
    rcases List.mem_append.mp hi with hi0 | hiL
    · have : i = 0 := List.mem_singleton.mp hi0
      subst this
      simp
    · have := (mem_samestructure structures (structures.getD 0 0) 0 i).mp hiL
      exact List.mem_singleton.mpr this.2.1
  · rw [hs']; exact List.nodup_singleton _
  · intro s hsm
    rw [hs'] at hsm
    have : s = structures.getD 0 0 := List.mem_singleton.mp hsm
    subst this
    exact getD_mem_of_lt hn

/-! ### One iteration of the selection loop -/

/-- Destructuring a successful selection-loop iteration into its three
sequential steps. -/
lemma selectIter_ok_elim {points : List Point} {structures : List ℕ}
    {st st' : MainState} (h : selectIter points structures st = .ok st') :
    ∃ maxCell radius cs,
      find_maxQ ((cells points st.centers).map Prod.fst) = .ok (maxCell, radius) ∧
      add_point points st.centers
        (((cells points st.centers).getD maxCell (0, 0)).2) = .ok cs ∧
      absorbLoop points
        ⟨cs, st.radii ++ [radius], st.selected ++
          [structures.getD (((cells points st.centers).getD maxCell (0, 0)).2) 0]⟩
        (samestructure structures
          (structures.getD (((cells points st.centers).getD maxCell (0, 0)).2) 0)
          (((cells points st.centers).getD maxCell (0, 0)).2)) = .ok st' := by
  simp only [selectIter] at h
  split at h
  · cases h
  · rename_i maxCell radius heq
    split at h
    · cases h
    · rename_i cs heq2
      exact ⟨maxCell, radius, cs, heq, heq2, h⟩

/-- Shape of the state after a successful iteration, with no invariant
assumption: the radius recorded for the selector-chosen point is appended
right after the previous entries and equals the maximal pre-add cell
radius; exactly one structure id is appended to the selected list. -/
lemma selectIter_ok_shape {points : List Point} {structures : List ℕ}
    {st st' : MainState} (h : selectIter points structures st = .ok st') :
    (∃ r t, st'.radii = st.radii ++ r :: t ∧
      r ∈ (cells points st.centers).map Prod.fst ∧
      ∀ x ∈ (cells points st.centers).map Prod.fst, x ≤ r) ∧
    (∃ s, st'.selected = st.selected ++ [s]) := by
  obtain ⟨maxCell, radius, cs, hfm, hap, hab⟩ := selectIter_ok_elim h
  obtain ⟨hget, hmax, _⟩ := find_maxQ_ok_inv hfm
  obtain ⟨hc, ⟨t, ht, htl⟩, hs, hnd, hall⟩ := absorbLoop_ok points _ _ _ hab
  have ht' : st'.radii = (st.radii ++ [radius]) ++ t := ht
  have hs' : st'.selected = st.selected ++
      [structures.getD (((cells points st.centers).getD maxCell (0, 0)).2) 0] := hs
  constructor
  · refine ⟨radius, t, ?_, List.get?_mem hget, hmax⟩
    rw [ht', List.append_assoc]
    rfl
  · exact ⟨_, hs'⟩

/-- A successful iteration preserves the invariant and selects exactly one
new structure (one the driver had not selected before). -/
lemma selectIter_ok_inv {points : List Point} {structures : List ℕ}
    {st st' : MainState} (hlen : points.length = structures.length)
    (hInv : Inv points structures st)
    (h : selectIter points structures st = .ok st') :
    Inv points structures st' ∧ st'.selected.length = st.selected.length + 1 := by
  obtain ⟨maxCell, radius, cs, hfm, hap, hab⟩ := selectIter_ok_elim h
  obtain ⟨hnotin, hsplt, rfl⟩ := add_point_ok hap
  obtain ⟨hc, ⟨t, ht, htl⟩, hs, hnd, hall⟩ := absorbLoop_ok points _ _ _ hab
  set sp := ((cells points st.centers).getD maxCell (0, 0)).2 with hsp
  set sel := structures.getD sp 0 with hsel
  have hc' : st'.centers = (st.centers ++ [sp]) ++ samestructure structures sel sp := hc
  have ht' : st'.radii = (st.radii ++ [radius]) ++ t := ht
  have hs' : st'.selected = st.selected ++ [sel] := hs
  have hsplt' : sp < structures.length := hlen ▸ hsplt
  have hfresh : sel ∉ st.selected := fun hmem => hnotin (hInv.covered sp hsplt' hmem)
  have hLmem : ∀ i ∈ samestructure structures sel sp,
      i < structures.length ∧ structures.getD i 0 = sel ∧ i ≠ sp :=
    fun i hi => (mem_samestructure structures sel sp i).mp hi
  refine ⟨⟨?_, ?_, ?_, ?_, ?_, ?_, ?_, ?_⟩, ?_⟩
  · rw [hc']; simp
  · have hlock := hInv.lockstep
    rw [ht', hc']
    simp only [List.length_append, List.length_cons, List.length_nil]
    omega
  · apply hnd
    rw [List.nodup_append]
    exact ⟨hInv.nodup, List.nodup_singleton sp, List.disjoint_singleton.mpr hnotin⟩
  · intro i hi
    rw [hc'] at hi
    rcases List.mem_append.mp hi with hi' | hiL
    · rcases List.mem_append.mp hi' with hi'' | hisp
      · exact hInv.memLt i hi''
      · have : i = sp := List.mem_singleton.mp hisp
        subst this
        exact hsplt'
    · exact (hLmem i hiL).1
  · intro i hilt hisel
    rw [hs'] at hisel
    rw [hc']
    rcases List.mem_append.mp hisel with hold | hnew
    · exact List.mem_append_left _ (List.mem_append_left _ (hInv.covered i hilt hold))
    · have his : structures.getD i 0 = sel := List.mem_singleton.mp hnew
      by_cases hisp : i = sp
      · subst hisp
        exact List.mem_append_left _ (List.mem_append_right _ (by simp))
      · exact List.mem_append_right _
          ((mem_samestructure structures sel sp i).mpr ⟨hilt, his, hisp⟩)
  · intro i hi
    rw [hc'] at hi
    rw [hs']
    rcases List.mem_append.mp hi with hi' | hiL
    · rcases List.mem_append.mp hi' with hi'' | hisp
      · exact List.mem_append_left _ (hInv.centersSel i hi'')
      · have : i = sp := List.mem_singleton.mp hisp
        subst this
        exact List.mem_append_right _ (List.mem_singleton.mpr hsel.symm)
    · exact List.mem_append_right _ (List.mem_singleton.mpr (hLmem i hiL).2.1)
  · rw [hs', List.nodup_append]
    exact ⟨hInv.selNodup, List.nodup_singleton sel, List.disjoint_singleton.mpr hfresh⟩
  · intro s hsm
    rw [hs'] at hsm
    rcases List.mem_append.mp hsm with h1 | h1
    · exact hInv.selMem s h1
    · have : s = sel := List.mem_singleton.mp h1
      subst this
      rw [hsel]
      exact getD_mem_of_lt hsplt'
  · rw [hs']; simp

/-! ### The selection loop -/

/-- A successful selection loop preserves the invariant, appends one
structure per iteration, and only ever appends to the radius and selected
sequences. -/
lemma selectLoop_ok {points : List Point} {structures : List ℕ}
    (hlen : points.length = structures.length) :
    ∀ (k : ℕ) (st st' : MainState),
      selectLoop points structures k st = .ok st' →
      Inv points structures st →
      Inv points structures st' ∧
      st'.selected.length = st.selected.length + k ∧
      (∃ t, st'.radii = st.radii ++ t) ∧
      (∃ t, st'.selected = st.selected ++ t) := by
  intro k
  induction k with
  | zero =>
    intro st st' h hInv
    simp only [selectLoop] at h
    obtain rfl := Except.ok.inj h
    exact ⟨hInv, rfl, ⟨[], by simp⟩, ⟨[], by simp⟩⟩
  | succ k ih =>
    intro st st' h hInv
    simp only [selectLoop] at h
    cases hit : selectIter points structures st with
    | error e => rw [hit] at h; cases h
    | ok st1 =>
      rw [hit] at h
      obtain ⟨hInv1, hlen1⟩ := selectIter_ok_inv hlen hInv hit
      obtain ⟨⟨r, t1, ht1, _, _⟩, ⟨s1, hs1⟩⟩ := selectIter_ok_shape hit
      obtain ⟨hInv', hlen', ⟨t2, ht2⟩, ⟨s2, hs2⟩⟩ := ih st1 st' h hInv1
      refine ⟨hInv', by omega, ?_, ?_⟩
      · exact ⟨(r :: t1) ++ t2, by rw [ht2, ht1, List.append_assoc]⟩
      · exact ⟨[s1] ++ s2, by rw [hs2, hs1, List.append_assoc]⟩

/-- If more structures are requested than remain available, the selection
loop must fail. -/
lemma selectLoop_overcount {points : List Point} {structures : List ℕ}
    (hlen : points.length = structures.length) :
    ∀ (k : ℕ) (st : MainState), Inv points structures st →
      structures.dedup.length < st.selected.length + k →
      ∃ e, selectLoop points structures k st = .error e := by
  intro k
  induction k with
  | zero =>
    intro st hInv hcount
    have h1 : st.selected.toFinset.card = st.selected.length :=
      List.toFinset_card_of_nodup hInv.selNodup
    have h2 : st.selected.toFinset ⊆ structures.dedup.toFinset := by
      intro a ha
      rw [List.mem_toFinset] at ha ⊢
      exact List.mem_dedup.mpr (hInv.selMem a ha)
    have h3 : st.selected.length ≤ structures.dedup.length := by
      calc st.selected.length = st.selected.toFinset.card := h1.symm
        _ ≤ structures.dedup.toFinset.card := Finset.card_le_card h2
        _ ≤ structures.dedup.length := List.toFinset_card_le _
    omega
  | succ k ih =>
    intro st hInv hcount
    cases hit : selectIter points structures st with
    | error e =>
      refine ⟨e, ?_⟩
      simp only [selectLoop]
      rw [hit]
    | ok st1 =>
      obtain ⟨hInv1, hlen1⟩ := selectIter_ok_inv hlen hInv hit
      obtain ⟨e, he⟩ := ih st1 hInv1 (by omega)
      refine ⟨e, ?_⟩
      simp only [selectLoop]
      rw [hit]
      exact he

/-! ### The whole run -/

/-- Decomposing a successful `runMain`: the invariant holds at the end,
the number of selected structures is `1 + (nSelect - 1)`, the first
selected structure is the seed point's, and the first recorded radius is
the seed cell's initial radius. -/
lemma runMain_ok_inv {points : List Point} {structures : List ℕ}
    {nSelect : ℕ} {st : MainState}
    (hn : 0 < structures.length) (hlen : points.length = structures.length)
    (h : runMain points structures nSelect = .ok st) :
    Inv points structures st ∧
    st.selected.length = 1 + (nSelect - 1) ∧
    st.selected.head? = some (structures.getD 0 0) ∧
    st.radii.head? = some (lastRadius points [0]) := by
  simp only [runMain] at h
  cases hab : absorbLoop points
      ⟨[0], [lastRadius points [0]], [structures.getD 0 0]⟩
      (samestructure structures (structures.getD 0 0) 0) with
  | error e => rw [hab] at h; cases h
  | ok st1 =>
    rw [hab] at h
    have hInv1 := inv_init hn hlen hab
    obtain ⟨hc1, ⟨t1, ht1, _⟩, hs1, _, _⟩ := absorbLoop_ok points _ _ _ hab
    have ht1' : st1.radii = [lastRadius points [0]] ++ t1 := ht1
    have hs1' : st1.selected = [structures.getD 0 0] := hs1
    obtain ⟨hInv, hlen', ⟨t2, ht2⟩, ⟨t3, ht3⟩⟩ := selectLoop_ok hlen _ _ _ h hInv1
    refine ⟨hInv, ?_, ?_, ?_⟩
    · rw [hlen', hs1']
      simp
    · rw [ht3, hs1']
      simp
    · rw [ht2, ht1']
      simp

/-! ### Claims C2–C7 and C9 -/

/-- C2, counterexample: with points `[[0], [4], [10]]`, structures
`[0, 1, 2]` and 2 requested structures, the radius recorded for the
selector-chosen point 2 is `100` — the maximal pre-add cell radius — while
just after `add_point(2)` the new center's cell radius is `0` and the cell
radii are `[16, 0]`; no post-add quantity equals the recorded `100`. -/
theorem C2_counterexample :
    runMain [[0], [4], [10]] [0, 1, 2] 2 =
      .ok ⟨[0, 2], [100, 100], [0, 2]⟩ ∧
    (cellStats [[0], [4], [10]] [0, 2] 2).1 = 0 ∧
    (cells [[0], [4], [10]] [0, 2]).map Prod.fst = [16, 0] ∧
    (100 : ℚ) ≠ 0 ∧ (100 : ℚ) ≠ 16 := by
  refine ⟨by decide, by decide, by decide, by decide, by decide⟩

/-- C2, amended: the radius recorded for a selector-chosen point reflects
the decomposer state just BEFORE the `add_point(target)` call: it is the
maximal `radius2` across the cells of the pre-add snapshot. -/
theorem C2_target_radius_is_pre_add (points : List Point)
    (structures : List ℕ) (st st' : MainState)
    (h : selectIter points structures st = .ok st') :
    ∃ r, st'.radii.get? st.radii.length = some r ∧
      r ∈ (cells points st.centers).map Prod.fst ∧
      ∀ x ∈ (cells points st.centers).map Prod.fst, x ≤ r := by
  obtain ⟨⟨r, t, ht, hmem, hmax⟩, _⟩ := selectIter_ok_shape h
  refine ⟨r, ?_, hmem, hmax⟩
  rw [ht, List.get?_append_right (le_refl _)]
  simp

/-- Witness for C2's amended theorem: the single iteration of the
counterexample run, seen at the concrete pre-iteration state. -/
theorem C2_witness :
    selectIter [[0], [4], [10]] [0, 1, 2] ⟨[0], [100], [0]⟩ =
      .ok ⟨[0, 2], [100, 100], [0, 2]⟩ ∧
    (∃ r, ([100, 100] : List ℚ).get? 1 = some r ∧
      r ∈ (cells [[0], [4], [10]] [0]).map Prod.fst ∧
      ∀ x ∈ (cells [[0], [4], [10]] [0]).map Prod.fst, x ≤ r) :=
  ⟨by decide, C2_target_radius_is_pre_add [[0], [4], [10]] [0, 1, 2]
    ⟨[0], [100], [0]⟩ ⟨[0, 2], [100, 100], [0, 2]⟩ (by decide)⟩

/-- C3: when the requested structure count exceeds the number of distinct
structure ids present, the run fails with a reported error instead of
returning (possibly truncated) output sequences. -/
theorem C3_overcount_fails (points : List Point) (structures : List ℕ)
    (nSelect : ℕ) (hn : 0 < structures.length)
    (hlen : points.length = structures.length)
    (hcount : structures.dedup.length < nSelect) :
    ∃ e, runMain points structures nSelect = .error e := by
  simp only [runMain]
  cases hab : absorbLoop points
      ⟨[0], [lastRadius points [0]], [structures.getD 0 0]⟩
      (samestructure structures (structures.getD 0 0) 0) with
  | error e => exact ⟨e, rfl⟩
  | ok st1 =>
    have hInv1 := inv_init hn hlen hab
    obtain ⟨_, _, hs1, _, _⟩ := absorbLoop_ok points _ _ _ hab
    have hs1' : st1.selected = [structures.getD 0 0] := hs1
    have hsel1 : st1.selected.length = 1 := by rw [hs1']; rfl
    obtain ⟨e, he⟩ := selectLoop_overcount hlen (nSelect - 1) st1 hInv1 (by omega)
    exact ⟨e, he⟩

/-- Witness for C3: one structure available, two requested. -/
theorem C3_witness :
    0 < ([0] : List ℕ).length ∧ ([[0]] : List Point).length = ([0] : List ℕ).length ∧
      ([0] : List ℕ).dedup.length < 2 ∧
      ∃ e, runMain [[0]] [0] 2 = .error e :=
  ⟨by decide, by decide, by decide,
    C3_overcount_fails [[0]] [0] 2 (by decide) (by decide) (by decide)⟩

/-- C4: in a successful run, one radius entry was recorded per point added
to the decomposer (in the order points were added), and the total number
of entries equals the number of points whose structure id appears in the
selected-structures sequence. -/
theorem C4_radius_per_added_point (points : List Point) (structures : List ℕ)
    (nSelect : ℕ) (st : MainState)
    (hn : 0 < structures.length) (hlen : points.length = structures.length)
    (h : runMain points structures nSelect = .ok st) :
    st.radii.length = st.centers.length ∧
    st.radii.length = ((List.range structures.length).filter
      (fun i => decide (structures.getD i 0 ∈ st.selected))).length := by
  obtain ⟨hInv, _, _, _⟩ := runMain_ok_inv hn hlen h
  refine ⟨hInv.lockstep, ?_⟩
  rw [hInv.lockstep]
  apply List.Perm.length_eq
  rw [List.perm_ext_iff_of_nodup hInv.nodup
    (List.Nodup.filter _ (List.nodup_range _))]
  intro a
  simp only [List.mem_filter, List.mem_range, decide_eq_true_eq]
  constructor
  · intro ha
    exact ⟨hInv.memLt a ha, hInv.centersSel a ha⟩
  · rintro ⟨h1, h2⟩
    exact hInv.covered a h1 h2

/-- Witness for C4 at a concrete successful run. -/
theorem C4_witness :
    0 < ([0, 1, 2] : List ℕ).length ∧
    ([[0], [4], [10]] : List Point).length = ([0, 1, 2] : List ℕ).length ∧
    runMain [[0], [4], [10]] [0, 1, 2] 2 = .ok ⟨[0, 2], [100, 100], [0, 2]⟩ ∧
    (([100, 100] : List ℚ).length = ([0, 2] : List ℕ).length ∧
      ([100, 100] : List ℚ).length = ((List.range ([0, 1, 2] : List ℕ).length).filter
        (fun i => decide (([0, 1, 2] : List ℕ).getD i 0 ∈ ([0, 2] : List ℕ)))).length) :=
  ⟨by decide, by decide, by decide,
    C4_radius_per_added_point [[0], [4], [10]] [0, 1, 2] 2
      ⟨[0, 2], [100, 100], [0, 2]⟩ (by decide) (by decide) (by decide)⟩

/-- C5: a successful run with `nSelect ≥ 1` outputs exactly `nSelect`
selected structures, in selection order, the first being the seed
point's structure id. -/
theorem C5_selected_count (points : List Point) (structures : List ℕ)
    (nSelect : ℕ) (st : MainState) (h1 : 1 ≤ nSelect)
    (hn : 0 < structures.length) (hlen : points.length = structures.length)
    (h : runMain points structures nSelect = .ok st) :
    st.selected.length = nSelect ∧
    st.selected.head? = some (structures.getD 0 0) := by
  obtain ⟨_, hlen', hhead, _⟩ := runMain_ok_inv hn hlen h
  exact ⟨by omega, hhead⟩

/-- Witness for C5 at a concrete successful run. -/
theorem C5_witness :
    1 ≤ 2 ∧ 0 < ([0, 1, 2] : List ℕ).length ∧
    ([[0], [4], [10]] : List Point).length = ([0, 1, 2] : List ℕ).length ∧
    runMain [[0], [4], [10]] [0, 1, 2] 2 = .ok ⟨[0, 2], [100, 100], [0, 2]⟩ ∧
    (([0, 2] : List ℕ).length = 2 ∧
      ([0, 2] : List ℕ).head? = some (([0, 1, 2] : List ℕ).getD 0 0)) :=
  ⟨by decide, by decide, by decide, by decide,
    C5_selected_count [[0], [4], [10]] [0, 1, 2] 2
      ⟨[0, 2], [100, 100], [0, 2]⟩ (by decide) (by decide) (by decide) (by decide)⟩

/-- C6: after a successful run, no point was ever added twice (the center
list, which records every seed/`add_point` in order, has no duplicates),
and every point of every selected structure was added exactly once. -/
theorem C6_each_point_once (points : List Point) (structures : List ℕ)
    (nSelect : ℕ) (st : MainState)
    (hn : 0 < structures.length) (hlen : points.length = structures.length)
    (h : runMain points structures nSelect = .ok st) :
    st.centers.Nodup ∧
    ∀ i, i < structures.length → structures.getD i 0 ∈ st.selected →
      st.centers.count i = 1 := by
  obtain ⟨hInv, _, _, _⟩ := runMain_ok_inv hn hlen h
  exact ⟨hInv.nodup, fun i h1 h2 =>
    List.count_eq_one_of_mem hInv.nodup (hInv.covered i h1 h2)⟩

/-- Witness for C6 at a concrete successful run. -/
theorem C6_witness :
    0 < ([0, 1, 2] : List ℕ).length ∧
    ([[0], [4], [10]] : List Point).length = ([0, 1, 2] : List ℕ).length ∧
    runMain [[0], [4], [10]] [0, 1, 2] 2 = .ok ⟨[0, 2], [100, 100], [0, 2]⟩ ∧
    (([0, 2] : List ℕ).Nodup ∧
      ∀ i, i < ([0, 1, 2] : List ℕ).length →
        ([0, 1, 2] : List ℕ).getD i 0 ∈ ([0, 2] : List ℕ) →
        ([0, 2] : List ℕ).count i = 1) :=
  ⟨by decide, by decide, by decide,
    C6_each_point_once [[0], [4], [10]] [0, 1, 2] 2
      ⟨[0, 2], [100, 100], [0, 2]⟩ (by decide) (by decide) (by decide)⟩

/-- C7: each absorption pass adds exactly the other points of the selected
structure, in strictly increasing point-index order, excluding the
just-selected point, appending them to the centers in that order and
recording exactly one radius entry per call. -/
theorem C7_absorption_protocol (points : List Point) (structures : List ℕ)
    (st st' : MainState) (sel t : ℕ)
    (h : absorbLoop points st (samestructure structures sel t) = .ok st') :
    List.Pairwise (· < ·) (samestructure structures sel t) ∧
    (∀ i, i ∈ samestructure structures sel t ↔
      (i < structures.length ∧ structures.getD i 0 = sel ∧ i ≠ t)) ∧
    st'.centers = st.centers ++ samestructure structures sel t ∧
    st'.radii.length = st.radii.length + (samestructure structures sel t).length := by
  obtain ⟨hc, ⟨t2, ht2, htl⟩, _, _, _⟩ := absorbLoop_ok points _ _ _ h
  refine ⟨samestructure_sorted structures sel t,
    fun i => mem_samestructure structures sel t i, hc, ?_⟩
  rw [ht2]
  simp [htl]

/-- Witness for C7: absorbing structure 0 (points 0 and 1) after seeding
at point 0. -/
theorem C7_witness :
    absorbLoop [[0], [1], [10]] ⟨[0], [100], [0]⟩
      (samestructure [0, 0, 1] 0 0) = .ok ⟨[0, 1], [100, 81], [0]⟩ ∧
    (List.Pairwise (· < ·) (samestructure [0, 0, 1] 0 0) ∧
      (∀ i, i ∈ samestructure [0, 0, 1] 0 0 ↔
        (i < ([0, 0, 1] : List ℕ).length ∧ ([0, 0, 1] : List ℕ).getD i 0 = 0 ∧ i ≠ 0)) ∧
      ([0, 1] : List ℕ) = [0] ++ samestructure [0, 0, 1] 0 0 ∧
      ([100, 81] : List ℚ).length = ([100] : List ℚ).length +
        (samestructure [0, 0, 1] 0 0).length) :=
  ⟨by decide, C7_absorption_protocol [[0], [1], [10]] [0, 0, 1]
    ⟨[0], [100], [0]⟩ ⟨[0, 1], [100, 81], [0]⟩ 0 0 (by decide)⟩

/-- C9: in a successful run the first recorded radius is the seed cell's
radius when the seed is the only center: the maximum squared distance
from the seed (point 0) to any point of the cloud. -/
theorem C9_first_radius_is_seed_radius (points : List Point)
    (structures : List ℕ) (nSelect : ℕ) (st : MainState)
    (hn : 0 < structures.length) (hp : 0 < points.length)
    (hlen : points.length = structures.length)
    (h : runMain points structures nSelect = .ok st) :
    ∃ i, i < points.length ∧
      st.radii.head? =
        some (squared_distance (points.getD 0 []) (points.getD i [])) ∧
      ∀ j, j < points.length →
        squared_distance (points.getD 0 []) (points.getD j []) ≤
          squared_distance (points.getD 0 []) (points.getD i []) := by
  obtain ⟨_, _, _, hhead⟩ := runMain_ok_inv hn hlen h
  obtain ⟨i, hi, heq, hall⟩ := lastRadius_seed points hp
  refine ⟨i, hi, by rw [hhead, heq], ?_⟩
  intro j hj
  rw [← heq]
  exact hall j hj

/-- Witness for C9 at a concrete successful run. -/
theorem C9_witness :
    0 < ([0, 1, 2] : List ℕ).length ∧ 0 < ([[0], [4], [10]] : List Point).length ∧
    ([[0], [4], [10]] : List Point).length = ([0, 1, 2] : List ℕ).length ∧
    runMain [[0], [4], [10]] [0, 1, 2] 2 = .ok ⟨[0, 2], [100, 100], [0, 2]⟩ ∧
    ∃ i, i < ([[0], [4], [10]] : List Point).length ∧
      ([100, 100] : List ℚ).head? = some (squared_distance
        (([[0], [4], [10]] : List Point).getD 0 [])
        (([[0], [4], [10]] : List Point).getD i [])) ∧
      ∀ j, j < ([[0], [4], [10]] : List Point).length →
        squared_distance (([[0], [4], [10]] : List Point).getD 0 [])
            (([[0], [4], [10]] : List Point).getD j []) ≤
          squared_distance (([[0], [4], [10]] : List Point).getD 0 [])
            (([[0], [4], [10]] : List Point).getD i []) :=
  ⟨by decide, by decide, by decide, by decide,
    C9_first_radius_is_seed_radius [[0], [4], [10]] [0, 1, 2] 2
      ⟨[0, 2], [100, 100], [0, 2]⟩ (by decide) (by decide) (by decide) (by decide)⟩

end VoronoiFPS
